import Mathlib

/-!
Verification development for the fantasy-baseball contest tracker
(`src/app.py`).  The engine computes per-team aggregates of daily player
statistics over a date range, ranks the teams, determines contest status
and winners, and manages snapshot staleness.

Modelling conventions:
* Calendar dates are day numbers (`ℤ`, days since 2024-12-31, so that
  2025-07-14 is day 195).  Date subtraction `(a - b).days` becomes `a - b`.
* Numeric statistic values are exact rationals (`ℚ`); the Python code uses
  floats, which we model by real (rational) arithmetic.
* Strings fed to `parse_ip` are `List Char`; Python `float()` on the
  dot-free fragments that `parse_ip` produces is modelled by `pyFloat`
  (optional sign followed by decimal digits; exotic float syntax such as
  exponents, whitespace padding, underscores, `inf`/`nan` does not occur
  at these call sites and is not modelled).
* Provider interactions (ESPN team/roster endpoints, MLB identity search
  and game-log endpoints) are modelled as functions packaged in the
  computation input, and every outbound request is recorded in a call
  trace, so that claims about "zero provider calls" are statable.
-/

namespace App

/-- The 19 supported stat categories (`valid_stats` in `compute_contest_stats`). -/
inductive StatCategory
  | OBP | HR | RBI | AVG | HITS | RUNS_SCORED | WALKS | STOLEN_BASES
  | SLUGGING_PERCENTAGE | INNINGS_PITCHED | HITS_ALLOWED | ERA | WALKS_ALLOWED
  | STRIKEOUTS | QUALITY_STARTS | WINS | SAVES | SAVES_HOLDS | WHIP | KBB
deriving DecidableEq

/-- `hitting_categories` list from `compute_contest_stats`. -/
def hitting_categories : List StatCategory :=
  [.OBP, .HR, .RBI, .AVG, .HITS, .RUNS_SCORED, .WALKS, .STOLEN_BASES,
   .SLUGGING_PERCENTAGE]

/-- `pitching_categories` list from `compute_contest_stats`. -/
def pitching_categories : List StatCategory :=
  [.INNINGS_PITCHED, .HITS_ALLOWED, .ERA, .WALKS_ALLOWED, .STRIKEOUTS,
   .QUALITY_STARTS, .WINS, .SAVES, .SAVES_HOLDS, .WHIP, .KBB]

/-- The categories that maintain a running numerator/denominator pair.  This
list appears twice verbatim in the source: in the `team_stats`
initialisation and in `format_stat`. -/
def ratio_categories : List StatCategory :=
  [.OBP, .AVG, .SLUGGING_PERCENTAGE, .ERA, .WHIP, .KBB]

/-- `lower_is_better` list used for the ranking sort direction. -/
def lower_is_better : List StatCategory :=
  [.HITS_ALLOWED, .ERA, .WALKS_ALLOWED, .WHIP]

/-- The aggregated per-player per-day statistic record (`aggregated_stats`).
The Python dict is read with `.get(key, 0)`, so a total record with
default `0` fields is an exact model of the reads. -/
structure DayStats where
  hits : ℚ := 0
  baseOnBalls : ℚ := 0
  hitByPitch : ℚ := 0
  atBats : ℚ := 0
  sacFlies : ℚ := 0
  homeRuns : ℚ := 0
  rbi : ℚ := 0
  runs : ℚ := 0
  stolenBases : ℚ := 0
  totalBases : ℚ := 0
  inningsPitched : ℚ := 0
  earnedRuns : ℚ := 0
  strikeOuts : ℚ := 0
  qualityStarts : ℚ := 0
  wins : ℚ := 0
  saves : ℚ := 0
  holds : ℚ := 0
deriving DecidableEq

/-- The all-zero day record, the starting value of `aggregated_stats`. -/
def dayStatsZero : DayStats := {}

/-- Pointwise sum of two day records: models the accumulation loop over
`daily_stats_list` (doubleheaders are summed).  Innings-pitched values
arrive already parsed (`parse_ip` is verified separately on the raw
strings); the string-marker degradation for `homeRuns`/`rbi` adds the
numeric contribution of the marker and is likewise absorbed into the
numeric field. -/
def addDayStats (a b : DayStats) : DayStats where
  hits := a.hits + b.hits
  baseOnBalls := a.baseOnBalls + b.baseOnBalls
  hitByPitch := a.hitByPitch + b.hitByPitch
  atBats := a.atBats + b.atBats
  sacFlies := a.sacFlies + b.sacFlies
  homeRuns := a.homeRuns + b.homeRuns
  rbi := a.rbi + b.rbi
  runs := a.runs + b.runs
  stolenBases := a.stolenBases + b.stolenBases
  totalBases := a.totalBases + b.totalBases
  inningsPitched := a.inningsPitched + b.inningsPitched
  earnedRuns := a.earnedRuns + b.earnedRuns
  strikeOuts := a.strikeOuts + b.strikeOuts
  qualityStarts := a.qualityStarts + b.qualityStarts
  wins := a.wins + b.wins
  saves := a.saves + b.saves
  holds := a.holds + b.holds

/-- One team's running accumulator.  The source keeps a dict with either
`num`/`den` keys (ratio categories) or a `total` key (counting
categories); the membership test deciding which keys exist is exactly
`stat_category ∈ ratio_categories`, so a single record with all three
fields, read according to the category, is a faithful model. -/
structure TeamAccumulator where
  num : ℚ := 0
  den : ℚ := 0
  total : ℚ := 0
deriving DecidableEq

/-- The initial accumulator (`{'num': 0.0, 'den': 0.0}` resp. `{'total': 0.0}`). -/
def accInit : TeamAccumulator := {}

/-- The per-player per-day accumulation step: the category dispatch chain of
`compute_contest_stats` (lines 567-672).  `lineup_slot_id` and
`active_pitcher_slots` are consulted only by the `INNINGS PITCHED`
branch, which re-validates the slot before counting. -/
def accumulatePlayerDay (cat : StatCategory) (lineup_slot_id : ℤ)
    (active_pitcher_slots : List ℤ) (s : DayStats) (acc : TeamAccumulator) :
    TeamAccumulator :=
  match cat with
  | .OBP =>
    let pa := s.atBats + s.baseOnBalls + s.hitByPitch + s.sacFlies
    if pa > 0 then
      if s.hits > s.atBats then acc
      else { acc with num := acc.num + (s.hits + s.baseOnBalls + s.hitByPitch),
                      den := acc.den + pa }
    else acc
  | .AVG =>
    let pa := s.atBats + s.baseOnBalls + s.hitByPitch + s.sacFlies
    if pa > 0 then
      if s.hits > s.atBats then acc
      else { acc with num := acc.num + s.hits, den := acc.den + s.atBats }
    else acc
  | .HR => { acc with total := acc.total + s.homeRuns }
  | .RBI => { acc with total := acc.total + s.rbi }
  | .HITS => { acc with total := acc.total + s.hits }
  | .RUNS_SCORED => { acc with total := acc.total + s.runs }
  | .WALKS => { acc with total := acc.total + s.baseOnBalls }
  | .STOLEN_BASES => { acc with total := acc.total + s.stolenBases }
  | .SLUGGING_PERCENTAGE =>
    let pa := s.atBats + s.baseOnBalls + s.hitByPitch + s.sacFlies
    if pa > 0 then
      if s.totalBases > 4 * s.atBats then acc
      else { acc with num := acc.num + s.totalBases, den := acc.den + s.atBats }
    else acc
  | .INNINGS_PITCHED =>
    if lineup_slot_id ∉ active_pitcher_slots then acc
    else { acc with total := acc.total + s.inningsPitched }
  | .HITS_ALLOWED => { acc with total := acc.total + s.hits }
  | .ERA =>
    if s.inningsPitched > 0 then
      if s.earnedRuns < 0 then acc
      else { acc with num := acc.num + s.earnedRuns * 9,
                      den := acc.den + s.inningsPitched }
    else acc
  | .WALKS_ALLOWED => { acc with total := acc.total + s.baseOnBalls }
  | .STRIKEOUTS => { acc with total := acc.total + s.strikeOuts }
  | .QUALITY_STARTS => { acc with total := acc.total + s.qualityStarts }
  | .WINS => { acc with total := acc.total + s.wins }
  | .SAVES => { acc with total := acc.total + s.saves }
  | .SAVES_HOLDS => { acc with total := acc.total + s.saves + s.holds }
  | .WHIP =>
    if s.inningsPitched > 0 then
      if s.hits < 0 ∨ s.baseOnBalls < 0 then acc
      else { acc with num := acc.num + (s.hits + s.baseOnBalls),
                      den := acc.den + s.inningsPitched }
    else acc
  | .KBB =>
    { acc with num := acc.num + s.strikeOuts, den := acc.den + s.baseOnBalls }

/-- Finalisation of one team's value (line 739):
`num/den if den > 0 else 999.0 if num > 0 else 0.0` for ratio
categories, the raw `total` otherwise. -/
def finalizeAcc (cat : StatCategory) (a : TeamAccumulator) : ℚ :=
  if cat ∈ ratio_categories then
    if a.den > 0 then a.num / a.den else if a.num > 0 then 999 else 0
  else a.total

/-- The ranking sort (lines 744-745):
`rankings.sort(key=lambda x: x[1], reverse=(stat_category not in lower_is_better))`.
Python's stable sort under a total preorder is modelled by insertion sort. -/
def sortRankings (cat : StatCategory) (l : List (String × ℚ)) :
    List (String × ℚ) :=
  if cat ∈ lower_is_better then
    l.insertionSort (fun a b => a.2 ≤ b.2)
  else
    l.insertionSort (fun a b => b.2 ≤ a.2)

/-- Character code of a decimal digit. -/
def digitToChar (d : ℕ) : Char := Char.ofNat (48 + d)

/-- Fuel-bounded digit renderer; the fuel strictly dominates the value, so
the recursion is structural (and kernel-evaluable). -/
def natToDecimalAux : ℕ → ℕ → List Char
  | 0, _ => []
  | fuel + 1, n =>
    if n < 10 then [digitToChar n]
    else natToDecimalAux fuel (n / 10) ++ [digitToChar (n % 10)]

/-- Decimal rendering of a natural number, most significant digit first;
models Python's decimal formatting of a nonnegative integer. -/
def natToDecimal (n : ℕ) : List Char := natToDecimalAux (n + 1) n

/-- Decimal rendering of an integer (Python formatting of an `int`). -/
def intToDecimal (n : ℤ) : List Char :=
  if n < 0 then '-' :: natToDecimal n.natAbs else natToDecimal n.toNat

/-- Digit value of a character, `none` when it is not a decimal digit. -/
def charDigit? (c : Char) : Option ℕ :=
  if 48 ≤ c.toNat ∧ c.toNat ≤ 57 then some (c.toNat - 48) else none

/-- Accumulating decimal parser over a digit string. -/
def parseDigitsAux (acc : ℕ) : List Char → Option ℕ
  | [] => some acc
  | c :: cs =>
    match charDigit? c with
    | some d => parseDigitsAux (10 * acc + d) cs
    | none => none

/-- Parses a nonempty all-digit string to a natural number. -/
def parseDigits (s : List Char) : Option ℕ :=
  match s with
  | [] => none
  | _ => parseDigitsAux 0 s

/-- Parses a digit string to a rational. -/
def parseDigitsQ (s : List Char) : Option ℚ :=
  (parseDigits s).map (fun n => (n : ℚ))

/-- Model of Python `float()` on the dot-free strings `parse_ip` feeds it:
an optional sign followed by decimal digits; `none` models a raised
`ValueError`. -/
def pyFloat (s : List Char) : Option ℚ :=
  match s with
  | [] => none
  | c :: cs =>
    if c = '-' then (parseDigitsQ cs).map Neg.neg
    else if c = '+' then parseDigitsQ cs
    else parseDigitsQ (c :: cs)

/-- Model of Python `str.split('.')`. -/
def splitDot : List Char → List (List Char)
  | [] => [[]]
  | c :: cs =>
    if c = '.' then [] :: splitDot cs
    else
      match splitDot cs with
      | [] => [[c]]
      | p :: ps => (c :: p) :: ps

/-- `parse_ip` (lines 322-331): fractional-innings decoding.  `"w.f"`
means `w + f/3`; a string without a dot parses as a plain number; any
failure (bad digits, a number of dot-separated parts other than two,
i.e. a failing tuple unpack) is caught and yields `0.0`. -/
def parse_ip (ip : List Char) : ℚ :=
  if '.' ∈ ip then
    match splitDot ip with
    | [whole, frac] =>
      match pyFloat whole, pyFloat frac with
      | some w, some f => w + f / 3
      | _, _ => 0
    | _ => 0
  else
    match pyFloat ip with
    | some q => q
    | none => 0

/-- Model of Python `round()` on an exact value: round half to even. -/
def pyRound (q : ℚ) : ℤ :=
  if q - ⌊q⌋ < 1 / 2 then ⌊q⌋
  else if 1 / 2 < q - ⌊q⌋ then ⌊q⌋ + 1
  else if 2 ∣ ⌊q⌋ then ⌊q⌋ else ⌊q⌋ + 1

/-- Model of Python `int()` on an exact value: truncation toward zero. -/
def pyTrunc (q : ℚ) : ℤ := if 0 ≤ q then ⌊q⌋ else -⌊-q⌋

/-- Zero-padded four-digit rendering of `n % 10000`, the fractional part of
a `%.4f` format. -/
def pad4 (n : ℕ) : List Char :=
  [digitToChar (n / 1000 % 10), digitToChar (n / 100 % 10),
   digitToChar (n / 10 % 10), digitToChar (n % 10)]

/-- Model of the Python format `f"{value:.4f}"` on an exact value. -/
def formatFixed4 (q : ℚ) : List Char :=
  (if pyRound (q * 10000) < 0 then ['-'] else []) ++
    natToDecimal ((pyRound (q * 10000)).natAbs / 10000) ++
    '.' :: pad4 ((pyRound (q * 10000)).natAbs % 10000)

/-- `format_stat` (lines 1289-1299): ratio categories print with four
decimals; innings pitched is re-encoded as `whole.thirds` via
`total_outs = round(value * 3)`, `whole = total_outs // 3`,
`frac = total_outs % 3` (Python `//`/`%` are floor division and
modulus, `Int.fdiv`/`Int.fmod`); all other categories print
`int(value)`. -/
def format_stat (value : ℚ) (category : StatCategory) : List Char :=
  if category ∈ ratio_categories then
    formatFixed4 value
  else if category = .INNINGS_PITCHED then
    intToDecimal (Int.fdiv (pyRound (value * 3)) 3) ++
      '.' :: intToDecimal (Int.fmod (pyRound (value * 3)) 3)
  else
    intToDecimal (pyTrunc value)

/-- One lineup entry of a team's daily roster.  `playerName` is `none` when
the provider omits the name (such entries are skipped).  The
`eligibleSlots` and `defaultPositionId` fields of the source are used
only in debug logging and carry no behaviour. -/
structure RosterEntry where
  lineupSlotId : ℤ
  playerId : ℤ
  playerName : Option String
deriving DecidableEq

/-- One team's roster for one day, as returned by the roster endpoint. -/
structure TeamRosterData where
  id : ℤ
  entries : List RosterEntry
deriving DecidableEq

/-- The outbound provider requests the computation can make. -/
inductive ProviderCall
  | fetchTeams
  | fetchRoster (day : ℤ)
  | searchId (playerId : ℤ)
  | fetchLog (playerId : ℤ)
deriving DecidableEq

/-- Contest status dictionary.  `winner` distinguishes Python `None`
(`none`) from a concrete winner list; the two day-count fields are
`none` when absent or `None`. -/
structure ContestStatus where
  is_started : Bool
  days_to_start : Option ℤ
  days_remaining : Option ℤ
  is_complete : Bool
  winner : Option (List String)
deriving DecidableEq

/-- Shape of the warning message: the literal not-started text, the
"no pitching stats found for N day(s): ..." text carrying the no-data
days, or the empty string. -/
inductive Warning
  | notStarted
  | noData (days : List ℤ)
  | empty
deriving DecidableEq

/-- Chart payload: parallel team-label and value arrays.  The fixed colour
constants of the source carry no data and are omitted. -/
structure ChartData where
  labels : List String
  data : List ℚ
deriving DecidableEq

/-- The tuple `compute_contest_stats` returns, plus the instrumented trace
of outbound provider requests. -/
structure ContestResultData where
  rankings : List (String × ℚ)
  chart : ChartData
  warning : Warning
  status : ContestStatus
  calls : List ProviderCall
deriving DecidableEq

/-- Input of one stats computation: the contest row plus the external
world.  `teams = none` models a failing league teams/settings fetch
(fatal).  `rosters d = []` models a failed or empty roster fetch for
day `d` (not fatal).  `mlb_id` is the combined outcome of
`get_mlb_id` (manual table, cache, live search); `none` means
unresolved.  `db_log`/`api_log` are the persistent game-log cache and
the live game-log endpoint (keyed by ESPN player id; the stat group is
fixed per computation by the category); `none` on `api_log` is a
request failure. -/
structure ContestInput where
  start_date : ℤ
  end_date : ℤ
  today : ℤ
  stat_category : StatCategory
  active_pitcher_slots : Option (List ℤ)
  teams : Option (List (ℤ × String))
  rosters : ℤ → List TeamRosterData
  mlb_id : ℤ → Option ℤ
  db_log : ℤ → Option (List (ℤ × DayStats))
  api_log : ℤ → Option (List (ℤ × DayStats))

/-- League pitcher-slot configuration (lines 386-394): a missing or
undecodable value falls back to `[13, 14, 15]`; a present list is
filtered to that range and the default is restored when the filter
leaves nothing. -/
def resolveActivePitcherSlots (raw : Option (List ℤ)) : List ℤ :=
  match raw with
  | none => [13, 14, 15]
  | some l =>
    let f := l.filter (fun s => s = 13 ∨ s = 14 ∨ s = 15)
    if f = [] then [13, 14, 15] else f

/-- The 2025 all-star break window (`date(2025, 7, 14) .. date(2025, 7, 17)`)
as day numbers since 2024-12-31. -/
def all_star_break : List ℤ := [195, 196, 197, 198]

/-- First-occurrence deduplication of the team-name list, matching the
Python dict comprehension keyed by team name. -/
def firstOccurrences (l : List String) : List String :=
  l.foldl (fun acc s => if s ∈ acc then acc else acc ++ [s]) []

/-- Association-list lookup (Python dict lookup). -/
def alookup {α β : Type} [DecidableEq α] (l : List (α × β)) (k : α) : Option β :=
  match l with
  | [] => none
  | p :: t => if p.1 = k then some p.2 else alookup t k

/-- Mutable state threaded through the aggregation loops.  `seen` is the
per-day `processed_players` set and `found` the per-day
`daily_stats_found` flag (both reset at the start of each day);
`mlbCache` is the in-process `mlb_id_cache`; `dbStore` holds game logs
persisted during this run; `failed` records a raised exception
(missing team id), which aborts the computation. -/
structure AggState where
  team_stats : List (String × TeamAccumulator)
  no_data_days : List ℤ
  seen : List ℤ
  found : Bool
  mlbCache : List (ℤ × ℤ)
  dbStore : List (ℤ × List (ℤ × DayStats))
  calls : List ProviderCall
  failed : Bool

/-- Applies `f` to the accumulator stored under `name`
(`team_stats[team_names[team_id]]` update). -/
def updateTeamStats (ts : List (String × TeamAccumulator)) (name : String)
    (f : TeamAccumulator → TeamAccumulator) : List (String × TeamAccumulator) :=
  ts.map (fun p => if p.1 = name then (p.1, f p.2) else p)

/-- Started-player selection (lines 439-463): entries without a player name
are skipped; hitting categories start lineup slots `≤ 12`; pitching
categories start exactly the active pitcher slots. -/
def startedPlayers (cat : StatCategory) (active_pitcher_slots : List ℤ)
    (entries : List RosterEntry) : List (ℤ × String × ℤ) :=
  entries.filterMap (fun e =>
    match e.playerName with
    | none => none
    | some nm =>
      if cat ∈ hitting_categories then
        if e.lineupSlotId ≤ 12 then some (e.playerId, nm, e.lineupSlotId) else none
      else
        if e.lineupSlotId ∈ active_pitcher_slots then
          some (e.playerId, nm, e.lineupSlotId)
        else none)

/-- Game-log retrieval for one player (lines 485-533): persistent cache
first (logs stored earlier in this run, then the pre-existing store),
otherwise a live request, whose success is persisted and whose failure
skips the player. -/
def lookupLog (inp : ContestInput) (st : AggState) (pid : ℤ) :
    Option (List (ℤ × DayStats)) × AggState :=
  match alookup st.dbStore pid with
  | some log => (some log, st)
  | none =>
    match inp.db_log pid with
    | some log => (some log, st)
    | none =>
      let st1 := { st with calls := st.calls ++ [ProviderCall.fetchLog pid] }
      match inp.api_log pid with
      | none => (none, st1)
      | some log => (some log, { st1 with dbStore := (pid, log) :: st1.dbStore })

/-- Processing of one started player once their MLB id is resolved:
per-day deduplication by MLB id (`processed_players`), game-log
retrieval, selection and summation of the day's entries, and the
category-specific accumulation into the player's team. -/
def processPlayerResolved (inp : ContestInput) (acts : List ℤ) (d : ℤ)
    (tname : String) (st : AggState) (p : ℤ × String × ℤ) (mlb : ℤ) :
    AggState :=
  if mlb ∈ st.seen then st
  else
    let st2 := { st with seen := mlb :: st.seen }
    match lookupLog inp st2 p.1 with
    | (none, st3) => st3
    | (some log, st3) =>
      let daily := (log.filter (fun e => e.1 = d)).map Prod.snd
      if daily = [] then st3
      else
        let agg := daily.foldl addDayStats dayStatsZero
        { st3 with
          found := true
          team_stats := updateTeamStats st3.team_stats tname
            (accumulatePlayerDay inp.stat_category p.2.2 acts agg) }

/-- Processing of one started player on one day (lines 469-672): identity
resolution through the in-process cache, then the combined
manual-table/database/live lookup of `get_mlb_id` (an unresolved
player is skipped), then `processPlayerResolved`. -/
def processPlayer (inp : ContestInput) (acts : List ℤ) (d : ℤ) (tname : String)
    (st : AggState) (p : ℤ × String × ℤ) : AggState :=
  if st.failed then st else
  match alookup st.mlbCache p.1 with
  | some mlb => processPlayerResolved inp acts d tname st p mlb
  | none =>
    let st1 := { st with calls := st.calls ++ [ProviderCall.searchId p.1] }
    match inp.mlb_id p.1 with
    | none => st1
    | some mlb =>
      processPlayerResolved inp acts d tname
        { st1 with mlbCache := (p.1, mlb) :: st1.mlbCache } p mlb

/-- Processing of one team's roster on one day.  A roster team id missing
from the team-name map raises (`team_names[team_id]` KeyError), which
the model records as `failed`. -/
def processTeam (inp : ContestInput) (teamNames : List (ℤ × String))
    (acts : List ℤ) (d : ℤ) (st : AggState) (t : TeamRosterData) : AggState :=
  if st.failed then st else
  match alookup teamNames t.id with
  | none => { st with failed := true }
  | some tname =>
    (startedPlayers inp.stat_category acts t.entries).foldl
      (processPlayer inp acts d tname) st

/-- Processing of one day (lines 417-678): the `processed_players` set and
`daily_stats_found` flag are reset; an empty roster records a no-data
day unless the day is an all-star-break day **and** the category is a
pitching category; otherwise the rosters are processed and a pitching
day on which no player produced statistics is recorded as a no-data
day unless inside the break.  The per-day roster request of
`get_team_rosters` is recorded in the trace. -/
def processDay (inp : ContestInput) (teamNames : List (ℤ × String))
    (acts : List ℤ) (st : AggState) (d : ℤ) : AggState :=
  if st.failed then st else
  let st0 := { st with seen := [], found := false,
                       calls := st.calls ++ [ProviderCall.fetchRoster d] }
  if inp.rosters d = [] then
    if d ∉ all_star_break ∨ inp.stat_category ∉ pitching_categories then
      { st0 with no_data_days := st0.no_data_days ++ [d] }
    else st0
  else
    let st1 := (inp.rosters d).foldl (processTeam inp teamNames acts d) st0
    if st1.failed then st1
    else if st1.found = false ∧ inp.stat_category ∈ pitching_categories ∧
        d ∉ all_star_break then
      { st1 with no_data_days := st1.no_data_days ++ [d] }
    else st1

/-- Winner extraction for a completed contest (lines 770-777): every team
whose value equals the top value of the sorted rankings; an empty
ranking yields an empty winner list. -/
def winnersOf (rankings : List (String × ℚ)) : List String :=
  match rankings with
  | [] => []
  | (_, top) :: _ => (rankings.filter (fun p => p.2 = top)).map Prod.fst

/-- Status assembly for a started contest (lines 762-777). -/
def finalStatus (end_date today : ℤ) (rankings : List (String × ℚ)) :
    ContestStatus :=
  if end_date > today then
    { is_started := true, days_to_start := none,
      days_remaining := some (end_date - today),
      is_complete := false, winner := none }
  else
    { is_started := true, days_to_start := none, days_remaining := none,
      is_complete := true, winner := some (winnersOf rankings) }

/-- The list of processed calendar days: the contest start date through
`min(end_date, today)` inclusive (empty when that bound precedes the
start date). -/
def daysRange (s e : ℤ) : List ℤ :=
  (List.range (e - s + 1).toNat).map (fun i : ℕ => s + (i : ℤ))

/-- The aggregation state before the day loop: one zero accumulator per
distinct team name (the Python dict comprehension keyed by name), and
the teams fetch already recorded in the trace. -/
def initialAggState (teamNames : List (ℤ × String)) : AggState :=
  { team_stats :=
      (firstOccurrences (teamNames.map Prod.snd)).map (fun n => (n, accInit))
    no_data_days := []
    seen := []
    found := false
    mlbCache := []
    dbStore := []
    calls := [ProviderCall.fetchTeams]
    failed := false }

/-- The aggregation state after the full day loop. -/
def aggFinalState (inp : ContestInput) (teamNames : List (ℤ × String)) :
    AggState :=
  (daysRange inp.start_date (min inp.end_date inp.today)).foldl
    (processDay inp teamNames (resolveActivePitcherSlots inp.active_pitcher_slots))
    (initialAggState teamNames)

/-- Finalised and sorted rankings of the aggregated state. -/
def finalRankings (inp : ContestInput) (teamNames : List (ℤ × String)) :
    List (String × ℚ) :=
  sortRankings inp.stat_category
    ((aggFinalState inp teamNames).team_stats.map
      (fun p => (p.1, finalizeAcc inp.stat_category p.2)))

/-- The started-contest path of `compute_contest_stats`: day loop,
finalisation, sort, warning assembly and the status/winner block;
`none` models the exception raised on a missing roster team id. -/
def computeStarted (inp : ContestInput) (teamNames : List (ℤ × String)) :
    Option ContestResultData :=
  if (aggFinalState inp teamNames).failed then none
  else
    some
      { rankings := finalRankings inp teamNames
        chart := { labels := (finalRankings inp teamNames).map Prod.fst,
                   data := (finalRankings inp teamNames).map Prod.snd }
        warning :=
          if (aggFinalState inp teamNames).no_data_days = [] then Warning.empty
          else Warning.noData (aggFinalState inp teamNames).no_data_days
        status := finalStatus inp.end_date inp.today (finalRankings inp teamNames)
        calls := (aggFinalState inp teamNames).calls }

/-- `compute_contest_stats` (lines 334-792).  A contest that has not
started returns immediately with empty rankings, the not-started
status and an empty call trace.  Otherwise the teams fetch happens
first (fatal on failure, `none`) and the started-contest path runs.
The weekly chunking of roster fetches batches requests but still
issues one request per day, so the per-day trace is equivalent. -/
def compute_contest_stats (inp : ContestInput) : Option ContestResultData :=
  if inp.start_date > inp.today then
    some
      { rankings := []
        chart := { labels := [], data := [] }
        warning := Warning.notStarted
        status :=
          { is_started := false
            days_to_start := some (inp.start_date - inp.today)
            days_remaining := none
            is_complete := false
            winner := none }
        calls := [] }
  else
    match inp.teams with
    | none => none
    | some teamNames => computeStarted inp teamNames

/-- Payload of a stored `ContestResult` row, as decoded. -/
structure SnapshotPayload where
  rankings : List (String × ℚ)
  chart : ChartData
  warning : Warning
  status : ContestStatus
deriving DecidableEq

/-- One stored `ContestResult` row: the date part of `last_updated`,
whether the persisted JSON decodes, and its decoded payload. -/
structure StoredSnapshot where
  last_updated : ℤ
  decodes : Bool
  payload : SnapshotPayload
deriving DecidableEq

/-- The latest stored snapshot
(`order_by(ContestResult.last_updated.desc()).first()`). -/
def latestSnapshot (history : List StoredSnapshot) : Option StoredSnapshot :=
  history.foldl
    (fun best s =>
      match best with
      | none => some s
      | some b => if s.last_updated > b.last_updated then some s else best)
    none

/-- `get_contest_data` (lines 794-844).  `fresh` is the recomputation
outcome (`compute_contest_stats`).  The returned triple is the served
payload, the updated snapshot history (a recomputation *prepends* a
new row dated today, never touching existing rows), and whether a
recomputation happened.  The stored snapshot is reused when one exists
and it is not the case that its date is before today while the contest
end date is today or later; a reused snapshot that fails to decode
forces recomputation after all. -/
def get_contest_data (today end_date : ℤ) (history : List StoredSnapshot)
    (fresh : SnapshotPayload) : SnapshotPayload × List StoredSnapshot × Bool :=
  match latestSnapshot history with
  | none =>
    (fresh, { last_updated := today, decodes := true, payload := fresh } :: history,
     true)
  | some s =>
    if s.last_updated < today ∧ end_date ≥ today then
      (fresh, { last_updated := today, decodes := true, payload := fresh } :: history,
       true)
    else if s.decodes then (s.payload, history, false)
    else
      (fresh, { last_updated := today, decodes := true, payload := fresh } :: history,
       true)

/-- The no-data days carried by a warning message. -/
def warningDays : Warning → List ℤ
  | .noData l => l
  | _ => []

/-- A one-team world in which every per-day roster fetch fails (empty
rosters): a minimal concrete instance for probing the status logic
and the no-data bookkeeping on chosen dates. -/
def emptyWorldInput (startd endd todayd : ℤ) (cat : StatCategory) :
    ContestInput where
  start_date := startd
  end_date := endd
  today := todayd
  stat_category := cat
  active_pitcher_slots := none
  teams := some [(1, "A")]
  rosters := fun _ => []
  mlb_id := fun _ => none
  db_log := fun _ => none
  api_log := fun _ => none

/-- A day record consisting only of home runs. -/
def hrOnly (n : ℚ) : DayStats := { homeRuns := n }

/-- The HR tie scenario of the spec: a two-day contest already past its
end date; team A's player hits 2 then 0 home runs, team B's player
hits 1 and 1. -/
def hrTieScenario : ContestInput where
  start_date := 0
  end_date := 1
  today := 2
  stat_category := .HR
  active_pitcher_slots := none
  teams := some [(1, "A"), (2, "B")]
  rosters := fun _ =>
    [{ id := 1,
       entries := [{ lineupSlotId := 0, playerId := 11, playerName := some ("PA") }] },
     { id := 2,
       entries := [{ lineupSlotId := 0, playerId := 22, playerName := some ("PB") }] }]
  mlb_id := fun pid =>
    if pid = 11 then some 101 else if pid = 22 then some 102 else none
  db_log := fun _ => none
  api_log := fun pid =>
    if pid = 11 then some [(0, hrOnly 2), (1, hrOnly 0)]
    else if pid = 22 then some [(0, hrOnly 1), (1, hrOnly 1)] else none

/-- A trivial snapshot payload for the snapshot-manager instances. -/
def payload0 : SnapshotPayload :=
  { rankings := [], chart := { labels := [], data := [] },
    warning := Warning.empty,
    status := { is_started := false, days_to_start := none,
                days_remaining := none, is_complete := false, winner := none } }

/-- A second, distinct snapshot payload. -/
def payload1 : SnapshotPayload :=
  { payload0 with warning := Warning.notStarted }

/-!  Digit-string lemmas used by the `parse_ip`/`format_stat` claims. -/

/-- Basic facts about a digit character. -/
theorem digitToChar_spec (d : ℕ) (hd : d < 10) :
    charDigit? (digitToChar d) = some d ∧ digitToChar d ≠ '.' ∧
      digitToChar d ≠ '-' ∧ digitToChar d ≠ '+' := by
  interval_cases d <;> decide

/-- The digit renderer does not depend on the fuel once it is sufficient. -/
theorem natToDecimalAux_congr (n : ℕ) : ∀ f1 f2 : ℕ, n < f1 → n < f2 →
    natToDecimalAux f1 n = natToDecimalAux f2 n := by
  induction n using Nat.strong_induction_on with
  | _ n ih =>
    intro f1 f2 h1 h2
    cases f1 with
    | zero => omega
    | succ g1 =>
      cases f2 with
      | zero => omega
      | succ g2 =>
        simp only [natToDecimalAux]
        by_cases hn : n < 10
        · simp [hn]
        · rw [if_neg hn, if_neg hn,
            ih (n / 10) (Nat.div_lt_self (by omega) (by omega)) g1 g2
              (by omega) (by omega)]

/-- Unfolding equation of `natToDecimal`. -/
theorem natToDecimal_eq (n : ℕ) :
    natToDecimal n = if n < 10 then [digitToChar n]
      else natToDecimal (n / 10) ++ [digitToChar (n % 10)] := by
  by_cases hn : n < 10
  · simp [natToDecimal, natToDecimalAux, hn]
  · rw [if_neg hn]
    show natToDecimalAux (n + 1) n = _
    simp only [natToDecimalAux]
    rw [if_neg hn,
      natToDecimalAux_congr (n / 10) n (n / 10 + 1) (by omega) (by omega)]
    rfl

/-- Every character of a decimal rendering is a digit. -/
theorem natToDecimal_digits (n : ℕ) :
    ∀ c ∈ natToDecimal n, ∃ d, d < 10 ∧ c = digitToChar d := by
  induction n using Nat.strong_induction_on with
  | _ n ih =>
    rw [natToDecimal_eq]
    by_cases hn : n < 10
    · rw [if_pos hn]
      intro c hc
      rw [List.mem_singleton] at hc
      exact ⟨n, hn, hc⟩
    · rw [if_neg hn]
      intro c hc
      rw [List.mem_append] at hc
      rcases hc with hc | hc
      · exact ih (n / 10) (Nat.div_lt_self (by omega) (by omega)) c hc
      · rw [List.mem_singleton] at hc
        exact ⟨n % 10, Nat.mod_lt _ (by omega), hc⟩

/-- A decimal rendering is never empty. -/
theorem natToDecimal_ne_nil (n : ℕ) : natToDecimal n ≠ [] := by
  rw [natToDecimal_eq]
  by_cases hn : n < 10 <;> simp [hn]

/-- The dot character is not a digit, hence never rendered. -/
theorem dot_not_mem_natToDecimal (n : ℕ) : '.' ∉ natToDecimal n := by
  intro hmem
  obtain ⟨d, hd, hc⟩ := natToDecimal_digits n _ hmem
  exact (digitToChar_spec d hd).2.1 hc.symm

/-- The digit parser distributes over list append. -/
theorem parseDigitsAux_append (xs : List Char) :
    ∀ (acc : ℕ) (ys : List Char),
      parseDigitsAux acc (xs ++ ys) =
        (parseDigitsAux acc xs).bind (fun a => parseDigitsAux a ys) := by
  induction xs with
  | nil => intro acc ys; rfl
  | cons c cs ih =>
    intro acc ys
    simp only [List.cons_append, parseDigitsAux]
    cases h : charDigit? c with
    | none => rfl
    | some d => simp only [Option.bind]; exact ih _ ys

/-- The digit parser inverts the digit renderer, for any seed accumulator. -/
theorem parseDigitsAux_natToDecimal (n : ℕ) :
    ∀ acc : ℕ, parseDigitsAux acc (natToDecimal n) =
      some (acc * 10 ^ (natToDecimal n).length + n) := by
  induction n using Nat.strong_induction_on with
  | _ n ih =>
    intro acc
    rw [natToDecimal_eq]
    by_cases hn : n < 10
    · rw [if_pos hn]
      simp only [parseDigitsAux, (digitToChar_spec n hn).1, List.length_singleton]
      rw [pow_one]
      congr 1
      omega
    · rw [if_neg hn, parseDigitsAux_append,
        ih (n / 10) (Nat.div_lt_self (by omega) (by omega)) acc]
      simp only [Option.bind, parseDigitsAux,
        (digitToChar_spec (n % 10) (Nat.mod_lt _ (by omega))).1,
        List.length_append, List.length_singleton, pow_succ]
      have hmod : 10 * (n / 10) + n % 10 = n := by omega
      congr 1
      rw [Nat.mul_add, Nat.add_assoc, hmod]
      ring_nf

/-- Round trip on whole digit strings. -/
theorem parseDigits_natToDecimal (n : ℕ) :
    parseDigits (natToDecimal n) = some n := by
  obtain ⟨c, cs, h⟩ := List.exists_cons_of_ne_nil (natToDecimal_ne_nil n)
  have haux := parseDigitsAux_natToDecimal n 0
  rw [h] at haux ⊢
  simpa [parseDigits] using haux

/-- Python `float()` recovers the rendered natural number. -/
theorem pyFloat_natToDecimal (n : ℕ) : pyFloat (natToDecimal n) = some (n : ℚ) := by
  obtain ⟨c, cs, h⟩ := List.exists_cons_of_ne_nil (natToDecimal_ne_nil n)
  obtain ⟨d, hd, hc⟩ := natToDecimal_digits n c (h ▸ List.mem_cons_self c cs)
  have hdash : ¬ c = '-' := hc ▸ (digitToChar_spec d hd).2.2.1
  have hplus : ¬ c = '+' := hc ▸ (digitToChar_spec d hd).2.2.2
  rw [h, pyFloat.eq_def]
  simp only [if_neg hdash, if_neg hplus]
  rw [← h, parseDigitsQ, parseDigits_natToDecimal]
  rfl

/-- Splitting a dot-free string yields the one-element list. -/
theorem splitDot_of_not_mem (s : List Char) (h : '.' ∉ s) : splitDot s = [s] := by
  induction s with
  | nil => rfl
  | cons c cs ih =>
    rw [splitDot]
    rw [if_neg (fun hc => h (by rw [← hc]; exact List.mem_cons_self c cs)),
      ih (fun hm => h (List.mem_cons_of_mem c hm))]

/-- Splitting around the first dot. -/
theorem splitDot_append (a b : List Char) (ha : '.' ∉ a) :
    splitDot (a ++ '.' :: b) = a :: splitDot b := by
  induction a with
  | nil => simp [splitDot]
  | cons c cs ih =>
    simp only [List.cons_append, splitDot]
    rw [if_neg (fun hc => ha (by rw [← hc]; exact List.mem_cons_self c cs)),
      List.append_eq, ih (fun hm => ha (List.mem_cons_of_mem c hm))]

/-- `parse_ip` decodes a rendered `"w.f"` string to `w + f/3`. -/
theorem parse_ip_encode (w f : ℕ) :
    parse_ip (natToDecimal w ++ '.' :: natToDecimal f) = (w : ℚ) + (f : ℚ) / 3 := by
  have hmem : '.' ∈ natToDecimal w ++ '.' :: natToDecimal f := by simp
  rw [parse_ip, if_pos hmem, splitDot_append _ _ (dot_not_mem_natToDecimal w),
    splitDot_of_not_mem _ (dot_not_mem_natToDecimal f)]
  simp [pyFloat_natToDecimal]

/-- `parse_ip` decodes a rendered whole number. -/
theorem parse_ip_plain (w : ℕ) : parse_ip (natToDecimal w) = (w : ℚ) := by
  rw [parse_ip, if_neg (dot_not_mem_natToDecimal w), pyFloat_natToDecimal]

/-- Rounding is the identity on integers. -/
theorem pyRound_intCast (n : ℤ) : pyRound ((n : ℚ)) = n := by
  simp only [pyRound, Int.floor_intCast, sub_self]
  norm_num

/-- Integer rendering agrees with natural rendering on casts. -/
theorem intToDecimal_natCast (n : ℕ) : intToDecimal (n : ℤ) = natToDecimal n := by
  simp [intToDecimal]

/-- `format_stat` re-encodes `w + f/3` (with `f < 3`) as `"w.f"`. -/
theorem format_stat_thirds (w f : ℕ) (hf : f < 3) :
    format_stat ((w : ℚ) + (f : ℚ) / 3) .INNINGS_PITCHED =
      natToDecimal w ++ '.' :: natToDecimal f := by
  have hip : ((w : ℚ) + (f : ℚ) / 3) * 3 = (((3 * w + f : ℕ) : ℤ) : ℚ) := by
    push_cast; ring
  rw [format_stat, if_neg (by decide), if_pos rfl, hip, pyRound_intCast]
  have h2 : Int.fdiv ((3 * w + f : ℕ) : ℤ) 3 = ((w : ℕ) : ℤ) := by
    rw [Int.fdiv_eq_ediv _ (by omega)]
    omega
  have h3 : Int.fmod ((3 * w + f : ℕ) : ℤ) 3 = ((f : ℕ) : ℤ) := by
    rw [Int.fmod_eq_emod _ (by omega)]
    omega
  rw [h2, h3, intToDecimal_natCast, intToDecimal_natCast]

/-!  Claim C4. -/

/-- C4: `parse_ip` maps `"6.2"` to `6 + 2/3` (exactly, hence within any
tolerance), `"6"` to `6.0`, `"garbage"` to `0.0`, and is a total
function of the input string: malformed input yields `0.0` instead of
an exception. -/
theorem C4_parse_ip_cases :
    parse_ip ['6', '.', '2'] = 6 + 2 / 3 ∧
    parse_ip ['6'] = 6 ∧
    parse_ip ['g', 'a', 'r', 'b', 'a', 'g', 'e'] = 0 ∧
    ∀ s : List Char, ∃ q : ℚ, parse_ip s = q := by
  refine ⟨?_, ?_, ?_, fun s => ⟨parse_ip s, rfl⟩⟩
  · have h := parse_ip_encode 6 2
    rw [show natToDecimal 6 = ['6'] by decide,
      show natToDecimal 2 = ['2'] by decide] at h
    push_cast at h
    simpa using h
  · have h := parse_ip_plain 6
    rw [show natToDecimal 6 = ['6'] by decide] at h
    push_cast at h
    exact h
  · decide

/-!  Claim C10. -/

/-- C10: round trip of the innings encoding: for every natural `w` and
fractional digit `f < 3`, formatting the parsed `"w.f"` under the
INNINGS PITCHED category reproduces `"w.f"`, and formatting the
parsed `"w"` yields `"w.0"`. -/
theorem C10_innings_roundtrip (w f : ℕ) (hf : f < 3) :
    format_stat (parse_ip (natToDecimal w ++ '.' :: natToDecimal f))
        .INNINGS_PITCHED = natToDecimal w ++ '.' :: natToDecimal f ∧
    format_stat (parse_ip (natToDecimal w)) .INNINGS_PITCHED =
      natToDecimal w ++ ['.', '0'] := by
  constructor
  · rw [parse_ip_encode, format_stat_thirds w f hf]
  · rw [parse_ip_plain]
    have h0 : (w : ℚ) = (w : ℚ) + ((0 : ℕ) : ℚ) / 3 := by norm_num
    rw [h0, format_stat_thirds w 0 (by norm_num),
      show natToDecimal 0 = ['0'] by decide]

/-- C10 witness: the round trip at `w = 6`, `f = 2`. -/
theorem C10_innings_roundtrip_witness :
    format_stat (parse_ip ['6', '.', '2']) .INNINGS_PITCHED = ['6', '.', '2'] := by
  have h := (C10_innings_roundtrip 6 2 (by norm_num)).1
  have e6 : natToDecimal 6 = ['6'] := by decide
  have e2 : natToDecimal 2 = ['2'] := by decide
  rw [e6, e2] at h
  exact h

/-!  Claim C5 and its shared sortedness helpers. -/

/-- Ascending sortedness of the ranking sort for lower-is-better
categories. -/
theorem sortRankings_sorted_asc (cat : StatCategory)
    (h : cat ∈ lower_is_better) (l : List (String × ℚ)) :
    List.Sorted (fun a b : String × ℚ => a.2 ≤ b.2) (sortRankings cat l) := by
  rw [sortRankings, if_pos h]
  haveI : IsTotal (String × ℚ) (fun a b : String × ℚ => a.2 ≤ b.2) :=
    ⟨fun a b => le_total a.2 b.2⟩
  haveI : IsTrans (String × ℚ) (fun a b : String × ℚ => a.2 ≤ b.2) :=
    ⟨fun _ _ _ h1 h2 => le_trans h1 h2⟩
  exact List.sorted_insertionSort _ l

/-- Descending sortedness of the ranking sort for the remaining
categories. -/
theorem sortRankings_sorted_desc (cat : StatCategory)
    (h : cat ∉ lower_is_better) (l : List (String × ℚ)) :
    List.Sorted (fun a b : String × ℚ => b.2 ≤ a.2) (sortRankings cat l) := by
  rw [sortRankings, if_neg h]
  haveI : IsTotal (String × ℚ) (fun a b : String × ℚ => b.2 ≤ a.2) :=
    ⟨fun a b => le_total b.2 a.2⟩
  haveI : IsTrans (String × ℚ) (fun a b : String × ℚ => b.2 ≤ a.2) :=
    ⟨fun _ _ _ h1 h2 => le_trans h2 h1⟩
  exact List.sorted_insertionSort _ l

/-- C5: rankings sort ascending by finalised value exactly for the
lower-is-better categories (HITS ALLOWED, ERA, WALKS ALLOWED, WHIP)
and descending for every other supported category. -/
theorem C5_sort_direction (cat : StatCategory) (l : List (String × ℚ)) :
    (cat ∈ lower_is_better →
      List.Sorted (fun a b : String × ℚ => a.2 ≤ b.2) (sortRankings cat l)) ∧
    (cat ∉ lower_is_better →
      List.Sorted (fun a b : String × ℚ => b.2 ≤ a.2) (sortRankings cat l)) :=
  ⟨fun h => sortRankings_sorted_asc cat h l,
   fun h => sortRankings_sorted_desc cat h l⟩

/-- C5 witness: ascending sort for ERA, descending for HR, on a concrete
two-team list. -/
theorem C5_sort_direction_witness :
    List.Sorted (fun a b : String × ℚ => a.2 ≤ b.2)
      (sortRankings .ERA [(("X" : String), (3 : ℚ)), (("Y" : String), 1)]) ∧
    List.Sorted (fun a b : String × ℚ => b.2 ≤ a.2)
      (sortRankings .HR [(("X" : String), (3 : ℚ)), (("Y" : String), 1)]) :=
  ⟨(C5_sort_direction .ERA _).1 (by decide),
   (C5_sort_direction .HR _).2 (by decide)⟩

/-!  Claim C6. -/

/-- C6 counterexample: a player-day with hits (2) exceeding at-bats (1)
and total bases 2 ≤ 4·at-bats still changes the SLUGGING PERCENTAGE
accumulator — the slugging guard checks total bases, not hits — so
the claim as stated (no contribution to OBP, AVG **and** SLG) is
false. -/
theorem C6_counterexample :
    ({ hits := 2, atBats := 1, totalBases := 2 } : DayStats).hits >
      ({ hits := 2, atBats := 1, totalBases := 2 } : DayStats).atBats ∧
    accumulatePlayerDay .SLUGGING_PERCENTAGE 0 []
      { hits := 2, atBats := 1, totalBases := 2 } accInit ≠ accInit := by
  constructor
  · norm_num
  · norm_num [accumulatePlayerDay, accInit]

/-- C6 (amended): a player-day record with hits exceeding at-bats
contributes nothing to the OBP and AVG accumulators; the SLUGGING
PERCENTAGE guard instead rejects exactly the records whose total
bases exceed four times the at-bats. -/
theorem C6_validity_guards (s : DayStats) (slot : ℤ) (acts : List ℤ)
    (acc : TeamAccumulator) :
    (s.hits > s.atBats →
      accumulatePlayerDay .OBP slot acts s acc = acc ∧
      accumulatePlayerDay .AVG slot acts s acc = acc) ∧
    (s.totalBases > 4 * s.atBats →
      accumulatePlayerDay .SLUGGING_PERCENTAGE slot acts s acc = acc) := by
  refine ⟨fun h => ⟨?_, ?_⟩, fun h => ?_⟩ <;>
    simp [accumulatePlayerDay, h]

/-- C6 witness: the OBP accumulator ignores a 2-hit, 1-at-bat day. -/
theorem C6_validity_guards_witness :
    accumulatePlayerDay .OBP 0 [] { hits := 2, atBats := 1 } accInit = accInit :=
  ((C6_validity_guards { hits := 2, atBats := 1 } 0 [] accInit).1 (by decide)).1

/-!  Claim C1. -/

/-- Accumulation for ERA or WHIP preserves a nonnegative denominator and
the property that a zero denominator forces a zero numerator: both
branches touch the pair only under `inningsPitched > 0`, and then the
denominator grows strictly. -/
theorem era_whip_fold_invariant (cat : StatCategory)
    (hcat : cat = StatCategory.ERA ∨ cat = StatCategory.WHIP) (acts : List ℤ) :
    ∀ (steps : List (ℤ × DayStats)) (acc : TeamAccumulator),
      0 ≤ acc.den → (acc.den = 0 → acc.num = 0) →
      0 ≤ (steps.foldl
          (fun a p => accumulatePlayerDay cat p.1 acts p.2 a) acc).den ∧
        ((steps.foldl
            (fun a p => accumulatePlayerDay cat p.1 acts p.2 a) acc).den = 0 →
          (steps.foldl
            (fun a p => accumulatePlayerDay cat p.1 acts p.2 a) acc).num = 0) := by
  intro steps
  induction steps with
  | nil => intro acc h1 h2; exact ⟨h1, h2⟩
  | cons p ps ih =>
    intro acc h1 h2
    rw [List.foldl_cons]
    rcases hcat with rfl | rfl
    · simp only [accumulatePlayerDay]
      split
      next hip =>
        split
        · exact ih acc h1 h2
        · refine ih _ ?_ ?_ <;> dsimp only
          · linarith
          · intro h0
            exfalso
            linarith
      next hip => exact ih acc h1 h2
    · simp only [accumulatePlayerDay]
      split
      next hip =>
        split
        · exact ih acc h1 h2
        · refine ih _ ?_ ?_ <;> dsimp only
          · linarith
          · intro h0
            exfalso
            linarith
      next hip => exact ih acc h1 h2

/-- C1 counterexample: under K/BB (a descending ratio category), the
sentinel team X (numerator 1, denominator 0, finalised to 999) sorts
strictly below team Y whose finite ratio is 1000/1 = 1000, so a
zero-denominator team does not rank above every finite-ratio team. -/
theorem C1_counterexample :
    (TeamAccumulator.mk 1 0 0).den = 0 ∧ (TeamAccumulator.mk 1 0 0).num > 0 ∧
    (TeamAccumulator.mk 1000 1 0).den > 0 ∧
    sortRankings .KBB
      [(("X" : String), finalizeAcc .KBB (TeamAccumulator.mk 1 0 0)),
       (("Y" : String), finalizeAcc .KBB (TeamAccumulator.mk 1000 1 0))] =
      [(("Y" : String), 1000), (("X" : String), 999)] := by
  refine ⟨rfl, by norm_num, by norm_num, ?_⟩
  norm_num +decide [sortRankings, finalizeAcc, ratio_categories,
    lower_is_better, List.insertionSort, List.orderedInsert]

/-- C1 (amended): finalisation yields num/den for positive denominator,
the sentinel 999.0 for denominator 0 with positive numerator, and 0.0
when both vanish.  In a descending-sorted ranking (every ratio
category except ERA and WHIP) a sentinel-valued team precedes every
team with value < 999 — a finite ratio ≥ 999, which K/BB permits, can
rank at or above the sentinel.  For ERA and WHIP, which sort
ascending, accumulation can never produce denominator 0 with positive
numerator, so no sentinel team arises there. -/
theorem C1_finalize_and_sentinel :
    (∀ cat ∈ ratio_categories, ∀ a : TeamAccumulator,
      (a.den > 0 → finalizeAcc cat a = a.num / a.den) ∧
      (a.den = 0 → a.num > 0 → finalizeAcc cat a = 999) ∧
      (a.den = 0 → a.num = 0 → finalizeAcc cat a = 0)) ∧
    (∀ cat, cat ∉ lower_is_better → ∀ (l : List (String × ℚ)) (i j : ℕ)
      (hi : i < (sortRankings cat l).length)
      (hj : j < (sortRankings cat l).length),
      ((sortRankings cat l).get ⟨i, hi⟩).2 = 999 →
      ((sortRankings cat l).get ⟨j, hj⟩).2 < 999 → i < j) ∧
    (∀ cat, cat = StatCategory.ERA ∨ cat = StatCategory.WHIP →
      ∀ (steps : List (ℤ × DayStats)) (acts : List ℤ),
        (steps.foldl (fun a p => accumulatePlayerDay cat p.1 acts p.2 a)
          accInit).den = 0 →
        (steps.foldl (fun a p => accumulatePlayerDay cat p.1 acts p.2 a)
          accInit).num = 0) := by
  refine ⟨?_, ?_, ?_⟩
  · intro cat hcat a
    refine ⟨fun h => ?_, fun h0 hn => ?_, fun h0 hn => ?_⟩
    · rw [finalizeAcc, if_pos hcat, if_pos h]
    · rw [finalizeAcc, if_pos hcat,
        if_neg (by rw [h0]; exact lt_irrefl 0), if_pos hn]
    · rw [finalizeAcc, if_pos hcat,
        if_neg (by rw [h0]; exact lt_irrefl 0),
        if_neg (by rw [hn]; exact lt_irrefl 0)]
  · intro cat hcat l i j hi hj h999 hlt
    by_contra hij
    push_neg at hij
    rcases Nat.lt_or_ge j i with hji | hji
    · have hrel := (sortRankings_sorted_desc cat hcat l).rel_get_of_lt
        (show (⟨j, hj⟩ : Fin (sortRankings cat l).length) < ⟨i, hi⟩ from hji)
      rw [h999] at hrel
      exact absurd (lt_of_le_of_lt hrel hlt) (lt_irrefl _)
    · have hije : i = j := by omega
      subst hije
      rw [h999] at hlt
      exact absurd hlt (lt_irrefl _)
  · intro cat hcat steps acts h0
    refine (era_whip_fold_invariant cat hcat acts steps accInit ?_ ?_).2 h0
    · norm_num [accInit]
    · intro h
      rfl

/-- C1 witness: the sentinel finalisation at a concrete accumulator, and
the ERA invariant on a concrete one-step accumulation. -/
theorem C1_finalize_and_sentinel_witness :
    finalizeAcc .KBB (TeamAccumulator.mk 1 0 0) = 999 ∧
    ([((13 : ℤ), dayStatsZero)].foldl
      (fun a p => accumulatePlayerDay .ERA p.1 [13] p.2 a) accInit).num = 0 :=
  ⟨(C1_finalize_and_sentinel.1 .KBB (by decide) (TeamAccumulator.mk 1 0 0)).2.1
      rfl (by norm_num),
   C1_finalize_and_sentinel.2.2 .ERA (Or.inl rfl) [((13 : ℤ), dayStatsZero)] [13]
      (by norm_num [accumulatePlayerDay, dayStatsZero, accInit])⟩

/-!  Claims C2, C8 and C3: the lifecycle status logic. -/

/-- C2 counterexample: with start = today = end date (0 ≤ 0 ≤ 0, satisfying
the claim's `start ≤ today ≤ end` premise), the computation reports the
contest complete with a winner list — not in progress with no winner. -/
theorem C2_counterexample :
    (emptyWorldInput 0 0 0 .HR).start_date ≤ (emptyWorldInput 0 0 0 .HR).today ∧
    (emptyWorldInput 0 0 0 .HR).today ≤ (emptyWorldInput 0 0 0 .HR).end_date ∧
    (compute_contest_stats (emptyWorldInput 0 0 0 .HR)).map
      (fun r => (r.status.is_complete, r.status.winner)) =
      some (true, some [("A" : String)]) := by
  refine ⟨le_rfl, le_rfl, ?_⟩
  norm_num +decide [compute_contest_stats, computeStarted, aggFinalState,
    daysRange, initialAggState, processDay, finalRankings, sortRankings,
    finalStatus, winnersOf, firstOccurrences, resolveActivePitcherSlots,
    all_star_break, pitching_categories, emptyWorldInput, finalizeAcc,
    ratio_categories, lower_is_better, accInit, List.insertionSort,
    List.orderedInsert, List.range_succ]

/-- C2 (amended): for start date ≤ today **strictly before** the end date,
the computed status is in progress: started, not complete, carrying
`end − today` days remaining and no winner.  (On `today = end date`
the code already reports the contest complete.) -/
theorem C2_in_progress (inp : ContestInput) (r : ContestResultData)
    (h1 : inp.start_date ≤ inp.today) (h2 : inp.today < inp.end_date)
    (hc : compute_contest_stats inp = some r) :
    r.status.is_started = true ∧ r.status.is_complete = false ∧
    r.status.days_remaining = some (inp.end_date - inp.today) ∧
    r.status.winner = none := by
  unfold compute_contest_stats at hc
  rw [if_neg (by omega : ¬ inp.start_date > inp.today)] at hc
  cases hteams : inp.teams with
  | none =>
    rw [hteams] at hc
    exact Option.noConfusion hc
  | some tn =>
    simp only [hteams] at hc
    unfold computeStarted at hc
    split at hc
    · exact Option.noConfusion hc
    · rw [Option.some_inj] at hc
      subst hc
      unfold finalStatus
      rw [if_pos (show inp.end_date > inp.today from h2)]
      exact ⟨rfl, rfl, rfl, rfl⟩

/-- C2 witness: an in-progress one-day contest with the roster fetch
failing still reports started/incomplete with one day remaining. -/
theorem C2_in_progress_witness :
    (compute_contest_stats (emptyWorldInput 0 1 0 .HR)).map
      (fun r => (r.status.is_complete, r.status.days_remaining,
        r.status.winner)) = some (false, some 1, none) := by
  cases hc : compute_contest_stats (emptyWorldInput 0 1 0 .HR) with
  | none =>
    exact absurd hc (by norm_num +decide [compute_contest_stats,
      computeStarted, aggFinalState, daysRange, initialAggState, processDay,
      firstOccurrences, resolveActivePitcherSlots, all_star_break,
      pitching_categories, emptyWorldInput, List.range_succ])
  | some r =>
    obtain ⟨_, h2, h3, h4⟩ := C2_in_progress _ r (by decide) (by decide) hc
    norm_num [h2, h3, h4, emptyWorldInput]

/-- C8: a contest whose start date is strictly after today returns the
not-started status (not started, days-to-start carried, not complete,
no winner), empty rankings, and an empty provider-call trace: no
teams, roster, identity or game-log request is made. -/
theorem C8_not_started (inp : ContestInput) (r : ContestResultData)
    (h : inp.start_date > inp.today)
    (hc : compute_contest_stats inp = some r) :
    r.rankings = [] ∧ r.calls = [] ∧ r.status.is_started = false ∧
    r.status.days_to_start = some (inp.start_date - inp.today) ∧
    r.status.days_remaining = none ∧ r.status.is_complete = false ∧
    r.status.winner = none := by
  unfold compute_contest_stats at hc
  rw [if_pos h, Option.some_inj] at hc
  subst hc
  exact ⟨rfl, rfl, rfl, rfl, rfl, rfl, rfl⟩

/-- C8 witness: a contest starting on day 5 evaluated on day 2 makes zero
provider calls and returns empty rankings. -/
theorem C8_not_started_witness :
    (compute_contest_stats (emptyWorldInput 5 9 2 .ERA)).map
      (fun r => (r.rankings, r.calls, r.status.is_started,
        r.status.days_to_start)) = some ([], [], false, some 3) := by
  cases hc : compute_contest_stats (emptyWorldInput 5 9 2 .ERA) with
  | none =>
    unfold compute_contest_stats at hc
    rw [if_pos (by decide : (emptyWorldInput 5 9 2 .ERA).start_date >
      (emptyWorldInput 5 9 2 .ERA).today)] at hc
    exact Option.noConfusion hc
  | some r =>
    obtain ⟨h1, h2, h3, h4, _⟩ := C8_not_started _ r (by decide) hc
    norm_num [h1, h2, h3, h4, emptyWorldInput]

/-- Membership in the winner list is exactly having the top value of the
(sorted) rankings. -/
theorem mem_winnersOf (rk : List (String × ℚ)) (t : String) :
    t ∈ winnersOf rk ↔ ∃ (h : rk ≠ []), (t, (rk.head h).2) ∈ rk := by
  cases rk with
  | nil => simp [winnersOf]
  | cons p rest =>
    simp only [winnersOf, List.head_cons, ne_eq, List.cons_ne_nil,
      not_false_eq_true, exists_true_left]
    constructor
    · intro ht
      obtain ⟨q, hq, hqt⟩ := List.mem_map.mp ht
      obtain ⟨hqmem, hqval⟩ := List.mem_filter.mp hq
      have hv : q.2 = p.2 := by simpa using hqval
      rw [← hqt, ← hv]
      simpa using hqmem
    · intro hmem
      exact List.mem_map.mpr ⟨(t, p.2), List.mem_filter.mpr ⟨hmem, by simp⟩, rfl⟩

/-- C3: once today is past the end date (for a contest satisfying the
creation invariant start date < end date) the status is complete with
no days remaining, and the winner list contains exactly the teams
whose finalised value equals the top value of the sorted rankings; in
the concrete HR scenario (A: 2 then 0 home runs, B: 1 and 1) both
teams finalise to 2 and the winner list is {A, B}. -/
theorem C3_complete_winners :
    (∀ (inp : ContestInput) (r : ContestResultData),
      inp.start_date < inp.end_date →
      inp.today > inp.end_date → compute_contest_stats inp = some r →
      r.status.is_complete = true ∧ r.status.days_remaining = none ∧
      ∃ ws, r.status.winner = some ws ∧
        ∀ t, t ∈ ws ↔ ∃ (h : r.rankings ≠ []),
          (t, (r.rankings.head h).2) ∈ r.rankings) ∧
    (compute_contest_stats hrTieScenario).map
        (fun r => (r.rankings, r.status.is_complete, r.status.winner)) =
      some ([(("A" : String), (2 : ℚ)), (("B" : String), 2)], true,
        some [("A" : String), ("B" : String)]) := by
  constructor
  · intro inp r hse htoday hc
    unfold compute_contest_stats at hc
    rw [if_neg (by omega : ¬ inp.start_date > inp.today)] at hc
    cases hteams : inp.teams with
    | none =>
      rw [hteams] at hc
      exact Option.noConfusion hc
    | some tn =>
      simp only [hteams] at hc
      unfold computeStarted at hc
      split at hc
      · exact Option.noConfusion hc
      · rw [Option.some_inj] at hc
        subst hc
        unfold finalStatus
        rw [if_neg (by omega : ¬ inp.end_date > inp.today)]
        exact ⟨rfl, rfl, winnersOf (finalRankings inp tn), rfl,
          fun t => mem_winnersOf (finalRankings inp tn) t⟩
  · norm_num +decide [compute_contest_stats, computeStarted, aggFinalState,
      daysRange, initialAggState, processDay, processTeam, processPlayer,
      processPlayerResolved, lookupLog, startedPlayers, alookup,
      updateTeamStats, addDayStats, dayStatsZero, accumulatePlayerDay, hrOnly,
      finalRankings, sortRankings, finalStatus, winnersOf, firstOccurrences,
      resolveActivePitcherSlots, all_star_break, pitching_categories,
      hitting_categories, hrTieScenario, finalizeAcc, ratio_categories,
      lower_is_better, accInit, List.insertionSort, List.orderedInsert,
      List.range_succ]

/-- C3 witness: the HR tie scenario, evaluated after its end date, is
reported complete. -/
theorem C3_complete_winners_witness :
    (compute_contest_stats hrTieScenario).map (fun r => r.status.is_complete) =
      some true := by
  cases hc : compute_contest_stats hrTieScenario with
  | none =>
    have h2 := C3_complete_winners.2
    rw [hc] at h2
    exact Option.noConfusion h2
  | some r =>
    have h :=
      (C3_complete_winners.1 hrTieScenario r (by decide) (by decide) hc).1
    simp [h]

/-!  Claim C7: the snapshot staleness policy. -/

/-- C7 counterexample: a decodable snapshot dated day 1 with today = 0 and
end date 0 (contest still running) is reused without recomputation,
although its computation date does not equal today and the end date is
not in the past — the claimed "if and only if" fails. -/
theorem C7_counterexample :
    (get_contest_data 0 0
      [{ last_updated := 1, decodes := true, payload := payload0 }]
      payload1).2.2 = false ∧
    ¬((1 : ℤ) = 0 ∨ (0 : ℤ) < 0) := by
  exact ⟨rfl, by decide⟩

/-- C7 (amended): the stored snapshot is served without recomputation iff
a latest snapshot exists, decodes, and either its computation date is
**today or later**, or the contest's end date is already in the past;
a failing decode forces recomputation; and recomputation serves the
fresh result and prepends a fresh snapshot, leaving every existing
row intact. -/
theorem C7_snapshot_policy (today end_date : ℤ)
    (history : List StoredSnapshot) (fresh : SnapshotPayload) :
    ((get_contest_data today end_date history fresh).2.2 = false ↔
      ∃ s, latestSnapshot history = some s ∧ s.decodes = true ∧
        (s.last_updated ≥ today ∨ end_date < today)) ∧
    ((get_contest_data today end_date history fresh).2.2 = false →
      ∃ s, latestSnapshot history = some s ∧
        (get_contest_data today end_date history fresh).1 = s.payload ∧
        (get_contest_data today end_date history fresh).2.1 = history) ∧
    ((get_contest_data today end_date history fresh).2.2 = true →
      (get_contest_data today end_date history fresh).1 = fresh ∧
      (get_contest_data today end_date history fresh).2.1 =
        { last_updated := today, decodes := true,
          payload := fresh } :: history) := by
  unfold get_contest_data
  cases hl : latestSnapshot history with
  | none =>
    dsimp only
    refine ⟨?_, fun h => absurd h (by simp), fun _ => ⟨rfl, rfl⟩⟩
    simp
  | some s =>
    dsimp only
    by_cases hstale : s.last_updated < today ∧ end_date ≥ today
    · rw [if_pos hstale]
      refine ⟨?_, fun h => absurd h (by simp), fun _ => ⟨rfl, rfl⟩⟩
      constructor
      · intro h
        exact absurd h (by simp)
      · rintro ⟨s2, hs2, hdec, hcond⟩
        rw [Option.some_inj] at hs2
        subst hs2
        exfalso
        omega
    · rw [if_neg hstale]
      by_cases hdec : s.decodes = true
      · rw [if_pos hdec]
        refine ⟨?_, ?_, fun h => absurd h (by simp)⟩
        · constructor
          · intro _
            exact ⟨s, rfl, hdec, by omega⟩
          · intro _
            rfl
        · intro _
          exact ⟨s, rfl, rfl, rfl⟩
      · rw [if_neg hdec]
        refine ⟨?_, fun h => absurd h (by simp), fun _ => ⟨rfl, rfl⟩⟩
        constructor
        · intro h
          exact absurd h (by simp)
        · rintro ⟨s2, hs2, hdec2, hcond⟩
          rw [Option.some_inj] at hs2
          subst hs2
          exact absurd hdec2 hdec

/-- C7 witness: a decodable snapshot computed today for a still-running
contest is served unchanged, without recomputation. -/
theorem C7_snapshot_policy_witness :
    (get_contest_data 5 9
      [{ last_updated := 5, decodes := true, payload := payload0 }]
      payload1).1 = payload0 := by
  obtain ⟨s, hs, hpay, _⟩ :=
    (C7_snapshot_policy 5 9
      [{ last_updated := 5, decodes := true, payload := payload0 }]
      payload1).2.1 (by decide)
  rw [hpay]
  rw [show latestSnapshot
      [{ last_updated := 5, decodes := true, payload := payload0 }] =
      some { last_updated := 5, decodes := true, payload := payload0 }
      from rfl, Option.some_inj] at hs
  rw [← hs]

/-!  Claim C9: no-data day bookkeeping. -/

/-- Game-log retrieval changes only the store and the call trace. -/
theorem lookupLog_preserves (inp : ContestInput) (st : AggState) (pid : ℤ) :
    ((lookupLog inp st pid).2).no_data_days = st.no_data_days ∧
    ((lookupLog inp st pid).2).failed = st.failed := by
  unfold lookupLog
  split
  · exact ⟨rfl, rfl⟩
  · split
    · exact ⟨rfl, rfl⟩
    · split
      · exact ⟨rfl, rfl⟩
      · exact ⟨rfl, rfl⟩

/-- Player processing never touches the no-data list or the failure flag. -/
theorem processPlayerResolved_preserves (inp : ContestInput) (acts : List ℤ)
    (d : ℤ) (tname : String) (st : AggState) (p : ℤ × String × ℤ) (mlb : ℤ) :
    (processPlayerResolved inp acts d tname st p mlb).no_data_days =
      st.no_data_days ∧
    (processPlayerResolved inp acts d tname st p mlb).failed = st.failed := by
  simp only [processPlayerResolved]
  split
  · exact ⟨rfl, rfl⟩
  · split
    next st3 heq =>
      have hp := lookupLog_preserves inp { st with seen := mlb :: st.seen } p.1
      rw [heq] at hp
      exact hp
    next log st3 heq =>
      have hp := lookupLog_preserves inp { st with seen := mlb :: st.seen } p.1
      rw [heq] at hp
      split
      · exact hp
      · exact hp

/-- Player processing (with resolution) never touches the no-data list or
the failure flag. -/
theorem processPlayer_preserves (inp : ContestInput) (acts : List ℤ) (d : ℤ)
    (tname : String) (st : AggState) (p : ℤ × String × ℤ) :
    (processPlayer inp acts d tname st p).no_data_days = st.no_data_days ∧
    (processPlayer inp acts d tname st p).failed = st.failed := by
  simp only [processPlayer]
  split
  · exact ⟨rfl, rfl⟩
  · split
    next mlb heq =>
      exact processPlayerResolved_preserves inp acts d tname st p mlb
    next heq =>
      split
      · exact ⟨rfl, rfl⟩
      · next mlb heq2 =>
        exact processPlayerResolved_preserves inp acts d tname _ p mlb

/-- Folding player processing preserves the no-data list and failure flag. -/
theorem foldl_processPlayer_preserves (inp : ContestInput) (acts : List ℤ)
    (d : ℤ) (tname : String) :
    ∀ (ps : List (ℤ × String × ℤ)) (st : AggState),
      ((ps.foldl (processPlayer inp acts d tname) st).no_data_days =
        st.no_data_days) ∧
      ((ps.foldl (processPlayer inp acts d tname) st).failed = st.failed) := by
  intro ps
  induction ps with
  | nil => intro st; exact ⟨rfl, rfl⟩
  | cons q qs ih =>
    intro st
    rw [List.foldl_cons]
    have h1 := processPlayer_preserves inp acts d tname st q
    have h2 := ih (processPlayer inp acts d tname st q)
    exact ⟨h2.1.trans h1.1, h2.2.trans h1.2⟩

/-- Team processing never touches the no-data list. -/
theorem processTeam_no_data (inp : ContestInput) (tn : List (ℤ × String))
    (acts : List ℤ) (d : ℤ) (st : AggState) (t : TeamRosterData) :
    (processTeam inp tn acts d st t).no_data_days = st.no_data_days := by
  simp only [processTeam]
  split
  · rfl
  · split
    · rfl
    · next tname heq =>
      exact (foldl_processPlayer_preserves inp acts d tname _ st).1

/-- Folding team processing never touches the no-data list. -/
theorem foldl_processTeam_no_data (inp : ContestInput)
    (tn : List (ℤ × String)) (acts : List ℤ) (d : ℤ) :
    ∀ (ts : List TeamRosterData) (st : AggState),
      (ts.foldl (processTeam inp tn acts d) st).no_data_days =
        st.no_data_days := by
  intro ts
  induction ts with
  | nil => intro st; rfl
  | cons t ts ih =>
    intro st
    rw [List.foldl_cons, ih, processTeam_no_data]

/-- A failed state is absorbing for day processing. -/
theorem processDay_failed_absorb (inp : ContestInput)
    (tn : List (ℤ × String)) (acts : List ℤ) (st : AggState) (d : ℤ)
    (h : st.failed = true) : processDay inp tn acts st d = st := by
  unfold processDay
  rw [if_pos h]

/-- A failed state is absorbing for the whole day loop. -/
theorem foldl_processDay_failed (inp : ContestInput)
    (tn : List (ℤ × String)) (acts : List ℤ) :
    ∀ (days : List ℤ) (st : AggState), st.failed = true →
      days.foldl (processDay inp tn acts) st = st := by
  intro days
  induction days with
  | nil => intro st _; rfl
  | cons d ds ih =>
    intro st h
    rw [List.foldl_cons, processDay_failed_absorb inp tn acts st d h, ih st h]

/-- One day appends at most its own date to the no-data list. -/
theorem processDay_no_data_shape (inp : ContestInput)
    (tn : List (ℤ × String)) (acts : List ℤ) (st : AggState) (d : ℤ) :
    ∃ t, (processDay inp tn acts st d).no_data_days = st.no_data_days ++ t ∧
      ∀ x ∈ t, x = d := by
  simp only [processDay]
  split
  · exact ⟨[], (List.append_nil _).symm, by simp⟩
  · split
    · split
      · exact ⟨[d], rfl, by simp⟩
      · exact ⟨[], (List.append_nil _).symm, by simp⟩
    · split
      · refine ⟨[], ?_, by simp⟩
        rw [List.append_nil, foldl_processTeam_no_data]
      · split
        · refine ⟨[d], ?_, by simp⟩
          simp [foldl_processTeam_no_data]
        · refine ⟨[], ?_, by simp⟩
          rw [List.append_nil, foldl_processTeam_no_data]

/-- The day loop appends only processed days to the no-data list. -/
theorem foldl_processDay_no_data_shape (inp : ContestInput)
    (tn : List (ℤ × String)) (acts : List ℤ) :
    ∀ (days : List ℤ) (st : AggState),
      ∃ t, (days.foldl (processDay inp tn acts) st).no_data_days =
          st.no_data_days ++ t ∧ ∀ x ∈ t, x ∈ days := by
  intro days
  induction days with
  | nil => intro st; exact ⟨[], (List.append_nil _).symm, by simp⟩
  | cons d ds ih =>
    intro st
    obtain ⟨t1, h1, ht1⟩ := processDay_no_data_shape inp tn acts st d
    obtain ⟨t2, h2, ht2⟩ := ih (processDay inp tn acts st d)
    refine ⟨t1 ++ t2, ?_, ?_⟩
    · rw [List.foldl_cons, h2, h1, List.append_assoc]
    · intro x hx
      rcases List.mem_append.mp hx with hx | hx
      · rw [ht1 x hx]
        exact List.mem_cons_self d ds
      · exact List.mem_cons_of_mem d (ht2 x hx)

/-- An empty-roster day is appended to the no-data list exactly when it is
outside the all-star break or the category is not a pitching one. -/
theorem processDay_empty_roster (inp : ContestInput)
    (tn : List (ℤ × String)) (acts : List ℤ) (st : AggState) (d : ℤ)
    (hf : st.failed = false) (hr : inp.rosters d = []) :
    (processDay inp tn acts st d).no_data_days =
      if d ∉ all_star_break ∨ inp.stat_category ∉ pitching_categories
      then st.no_data_days ++ [d] else st.no_data_days := by
  simp only [processDay]
  rw [if_neg (by simp [hf]), if_pos hr]
  split
  next _h => rfl
  next _h => rfl

/-- The processed-day list is the integer interval, so membership follows
from the bounds. -/
theorem mem_daysRange (s e d : ℤ) (h1 : s ≤ d) (h2 : d ≤ e) :
    d ∈ daysRange s e := by
  unfold daysRange
  have hx : (d - s).toNat < (e - s + 1).toNat := by omega
  refine List.mem_map.mpr ⟨(d - s).toNat, List.mem_range.mpr hx, ?_⟩
  show s + ((d - s).toNat : ℤ) = d
  omega

/-- The processed-day list has no duplicates. -/
theorem daysRange_nodup (s e : ℤ) : (daysRange s e).Nodup := by
  unfold daysRange
  refine List.Nodup.map ?_ (List.nodup_range _)
  intro a b hab
  have hab2 : s + (a : ℤ) = s + (b : ℤ) := hab
  omega

/-- Membership in the days carried by the assembled warning is membership
in the no-data list. -/
theorem mem_warningDays_ite (nd : List ℤ) (x : ℤ) :
    (x ∈ warningDays
      (if nd = [] then Warning.empty else Warning.noData nd)) ↔ x ∈ nd := by
  split
  next h =>
    rw [h]
    simp [warningDays]
  next h => simp [warningDays]

/-- C9 counterexample: day 195 lies inside the all-star break, yet with the
(non-pitching) stat category HR an empty-roster day on it is still
recorded in the warning, so break days are not excluded for every
stat category. -/
theorem C9_counterexample :
    (195 : ℤ) ∈ all_star_break ∧
    (compute_contest_stats (emptyWorldInput 195 195 300 .HR)).map
      (fun r => r.warning) = some (Warning.noData [195]) := by
  refine ⟨by decide, ?_⟩
  norm_num +decide [compute_contest_stats, computeStarted, aggFinalState,
    daysRange, initialAggState, processDay, finalRankings, sortRankings,
    finalStatus, winnersOf, firstOccurrences, resolveActivePitcherSlots,
    all_star_break, pitching_categories, emptyWorldInput, finalizeAcc,
    ratio_categories, lower_is_better, accInit, List.insertionSort,
    List.orderedInsert, List.range_succ]

/-- C9 (amended): a day in the computed range whose roster fetch fails
(empty roster) is recorded as a no-data day counted in the warning,
**except** when the day falls inside the all-star break **and** the
stat category is a pitching category, in which case it is excluded;
for non-pitching categories the break gives no exemption. -/
theorem C9_no_data_days (inp : ContestInput) (r : ContestResultData) (d : ℤ)
    (hc : compute_contest_stats inp = some r)
    (hd1 : inp.start_date ≤ d) (hd2 : d ≤ inp.end_date) (hd3 : d ≤ inp.today)
    (hr : inp.rosters d = []) :
    ((d ∉ all_star_break ∨ inp.stat_category ∉ pitching_categories) →
      d ∈ warningDays r.warning) ∧
    ((d ∈ all_star_break ∧ inp.stat_category ∈ pitching_categories) →
      d ∉ warningDays r.warning) := by
  unfold compute_contest_stats at hc
  rw [if_neg (by omega : ¬ inp.start_date > inp.today)] at hc
  cases hteams : inp.teams with
  | none =>
    rw [hteams] at hc
    exact Option.noConfusion hc
  | some tn =>
    simp only [hteams] at hc
    unfold computeStarted at hc
    split at hc
    case isTrue => exact Option.noConfusion hc
    case isFalse hF =>
      rw [Option.some_inj] at hc
      subst hc
      have hfail : (aggFinalState inp tn).failed = false := by
        cases hb : (aggFinalState inp tn).failed
        · rfl
        · exact absurd hb hF
      have hW := mem_warningDays_ite (aggFinalState inp tn).no_data_days d
      have hdmem : d ∈ daysRange inp.start_date (min inp.end_date inp.today) :=
        mem_daysRange _ _ d hd1 (le_min hd2 hd3)
      obtain ⟨l1, l2, hsplit⟩ := List.append_of_mem hdmem
      obtain ⟨h1, h2, hdisj⟩ := List.nodup_append.mp
        (hsplit ▸ daysRange_nodup inp.start_date (min inp.end_date inp.today))
      have hd_l2 : d ∉ l2 := (List.nodup_cons.mp h2).1
      have hd_l1 : d ∉ l1 := fun hx => hdisj hx (List.mem_cons_self d l2)
      have hagg : aggFinalState inp tn =
          l2.foldl
            (processDay inp tn (resolveActivePitcherSlots inp.active_pitcher_slots))
            (processDay inp tn (resolveActivePitcherSlots inp.active_pitcher_slots)
              (l1.foldl
                (processDay inp tn
                  (resolveActivePitcherSlots inp.active_pitcher_slots))
                (initialAggState tn))
              d) := by
        rw [aggFinalState, hsplit, List.foldl_append, List.foldl_cons]
      have hAfail :
          (l1.foldl
            (processDay inp tn (resolveActivePitcherSlots inp.active_pitcher_slots))
            (initialAggState tn)).failed = false := by
        cases hb :
          (l1.foldl
            (processDay inp tn (resolveActivePitcherSlots inp.active_pitcher_slots))
            (initialAggState tn)).failed
        · rfl
        · exfalso
          rw [hagg, processDay_failed_absorb _ _ _ _ _ hb,
            foldl_processDay_failed _ _ _ _ _ hb, hb] at hfail
          exact Bool.noConfusion hfail
      obtain ⟨tA, hA, htA⟩ := foldl_processDay_no_data_shape inp tn
        (resolveActivePitcherSlots inp.active_pitcher_slots) l1
        (initialAggState tn)
      obtain ⟨tF, hFnd, htF⟩ := foldl_processDay_no_data_shape inp tn
        (resolveActivePitcherSlots inp.active_pitcher_slots) l2
        (processDay inp tn (resolveActivePitcherSlots inp.active_pitcher_slots)
          (l1.foldl
            (processDay inp tn (resolveActivePitcherSlots inp.active_pitcher_slots))
            (initialAggState tn))
          d)
      have hB := processDay_empty_roster inp tn
        (resolveActivePitcherSlots inp.active_pitcher_slots)
        (l1.foldl
          (processDay inp tn (resolveActivePitcherSlots inp.active_pitcher_slots))
          (initialAggState tn))
        d hAfail hr
      constructor
      · intro hcond
        refine hW.mpr ?_
        rw [hagg, hFnd, hB, if_pos hcond]
        simp
      · intro hcond hmem
        have hmem2 := hW.mp hmem
        rw [hagg, hFnd, hB,
          if_neg (by simp [hcond.1, hcond.2])] at hmem2
        rcases List.mem_append.mp hmem2 with hm | hm
        · rw [hA] at hm
          rcases List.mem_append.mp hm with hm2 | hm2
          · simp [initialAggState] at hm2
          · exact hd_l1 (htA d hm2)
        · exact hd_l2 (htF d hm)

/-- C9 witness: a failed roster day outside the break, under a pitching
category, is counted in the warning. -/
theorem C9_no_data_days_witness :
    (0 : ℤ) ∈ warningDays
      (((compute_contest_stats (emptyWorldInput 0 0 5 .ERA)).getD
        { rankings := [], chart := { labels := [], data := [] },
          warning := Warning.empty,
          status := { is_started := false, days_to_start := none,
                      days_remaining := none, is_complete := false,
                      winner := none },
          calls := [] }).warning) := by
  cases hc : compute_contest_stats (emptyWorldInput 0 0 5 .ERA) with
  | none =>
    exact absurd hc (by norm_num +decide [compute_contest_stats,
      computeStarted, aggFinalState, daysRange, initialAggState, processDay,
      firstOccurrences, resolveActivePitcherSlots, all_star_break,
      pitching_categories, emptyWorldInput, List.range_succ])
  | some r =>
    have h := (C9_no_data_days _ r 0 hc (by decide) (by decide) (by decide)
      rfl).1 (by decide)
    simpa using h

end App
